import Mathlib

/-!
Shallow embedding of the rechess.club backend (src/backend/chess_game.py and
src/backend/main.py) and proofs about its behaviour.

Python dictionaries are modelled as association lists (insertion order
preserved, first-match lookup); Python ints are `Int`; Python floats in the
clock logic are modelled as rationals with an explicit round-to-one-decimal
function; stateful methods that mutate and restore `self` are modelled as
explicit state-passing functions.
-/

/-- `Color` enum of chess_game.py. -/
inductive Color where
  | white
  | black
deriving DecidableEq, Repr

/-- `Color.opposite` of chess_game.py. -/
def Color.opposite : Color → Color
  | .white => .black
  | .black => .white

/-- `PieceType` enum of chess_game.py: exactly six members. -/
inductive PieceType where
  | pawn
  | rook
  | knight
  | bishop
  | queen
  | king
deriving DecidableEq, Repr

/-- The string `value` attached to each `PieceType` member in chess_game.py. -/
def PieceType.value : PieceType → String
  | .pawn => "pawn"
  | .rook => "rook"
  | .knight => "knight"
  | .bishop => "bishop"
  | .queen => "queen"
  | .king => "king"

/-- The list of all `PieceType` members, in declaration order. -/
def allPieceTypes : List PieceType :=
  [.pawn, .rook, .knight, .bishop, .queen, .king]

/-- The `value` strings of all `PieceType` members. -/
def pieceTypeValues : List String :=
  allPieceTypes.map PieceType.value

/-- The fairy piece-type names the specification lists for `PieceType`
(lower-case enum-value form, as a lookup such as `PieceType("mann")` or an
attribute access `PieceType.MANN` would need). -/
def fairyTypeNames : List String :=
  ["mann", "elephant", "giraffe", "unicorn", "centaur", "champion", "wizard",
   "amazon", "dragon", "zebra", "chancellor", "archbishop", "ship"]

/-- `PieceType(s)` value lookup used by main.py to convert a promotion
string; `none` models the `ValueError` case. -/
def pieceTypeOfString (s : String) : Option PieceType :=
  allPieceTypes.find? (fun t => t.value = s)

/-- `Position` dataclass of chess_game.py (row and col are Python ints). -/
structure Position where
  row : Int
  col : Int
deriving DecidableEq, Repr

/-- `Position.is_valid`. -/
def Position.isValid (p : Position) : Bool :=
  decide (0 ≤ p.row) && decide (p.row < 8) && decide (0 ≤ p.col) && decide (p.col < 8)

/-- `Position.offset`. -/
def Position.offset (p : Position) (rowDelta colDelta : Int) : Position :=
  ⟨p.row + rowDelta, p.col + colDelta⟩

/-- `Position.to_algebraic`: file letter then rank digit.  For the ranks the
board uses (row 0-7) Python's `str(row + 1)` is the single digit character
with code `49 + row`, which is how it is modelled here. -/
def Position.toAlgebraic (p : Position) : String :=
  String.mk [Char.ofNat (97 + p.col).toNat, Char.ofNat (49 + p.row).toNat]

/-- `Position.from_algebraic`: reads the first two characters; `none` models
the exceptions Python raises on a too-short string or a non-digit rank. -/
def Position.fromAlgebraic (s : String) : Option Position :=
  match s.toList with
  | c0 :: c1 :: _ =>
      if c1.isDigit then some ⟨(c1.toNat : Int) - 49, (c0.toNat : Int) - 97⟩
      else none
  | _ => none

/-- `Piece` dataclass of chess_game.py. -/
structure Piece where
  pieceType : PieceType
  color : Color
  hasMoved : Bool := false
deriving DecidableEq, Repr

/-- `Move` dataclass of chess_game.py. -/
structure Move where
  fromPos : Position
  toPos : Position
  piece : Piece
  capturedPiece : Option Piece := none
  isCastling : Bool := false
  isEnPassant : Bool := false
  promotionPieceType : Option PieceType := none
deriving DecidableEq, Repr

/-- The board dictionary `Dict[Position, Piece]`, modelled as an association
list in insertion order with unique keys. -/
abbrev Board := List (Position × Piece)

/-- Dictionary lookup `board.get(pos)`. -/
def Board.get : Board → Position → Option Piece
  | [], _ => none
  | e :: rest, p => if e.1 = p then some e.2 else Board.get rest p

/-- Dictionary assignment `board[pos] = piece`: replaces the entry in place
if the key is present, appends otherwise. -/
def Board.set : Board → Position → Piece → Board
  | [], p, pc => [(p, pc)]
  | e :: rest, p, pc =>
      if e.1 = p then (p, pc) :: rest else e :: Board.set rest p pc

/-- Dictionary deletion `del board[pos]` (no-op when the key is absent,
matching the guarded deletes in the source). -/
def Board.del : Board → Position → Board
  | [], _ => []
  | e :: rest, p => if e.1 = p then rest else e :: Board.del rest p

/-- The `ChessGame` state: board, current turn, move history and en passant
target. -/
structure Game where
  board : Board
  currentTurn : Color
  moveHistory : List Move
  enPassantTarget : Option Position
deriving DecidableEq, Repr

/-- `ChessGame.get_piece`. -/
def getPiece (g : Game) (pos : Position) : Option Piece :=
  g.board.get pos

/-- The back rank piece order of `_initialize_board`. -/
def backRankOrder : List PieceType :=
  [.rook, .knight, .bishop, .queen, .king, .bishop, .knight, .rook]

/-- The board built by `_initialize_board`, in dictionary insertion order:
the pawn loop first (white then black per file), then the back-rank loop. -/
def initialBoard : Board :=
  ((List.range 8).flatMap (fun c =>
    [((⟨1, (c : Int)⟩ : Position), (⟨.pawn, .white, false⟩ : Piece)),
     ((⟨6, (c : Int)⟩ : Position), (⟨.pawn, .black, false⟩ : Piece))])) ++
  (backRankOrder.enum.flatMap (fun e =>
    [((⟨0, (e.1 : Int)⟩ : Position), (⟨e.2, .white, false⟩ : Piece)),
     ((⟨7, (e.1 : Int)⟩ : Position), (⟨e.2, .black, false⟩ : Piece))]))

/-- A fresh `ChessGame()`. -/
def initialGame : Game :=
  ⟨initialBoard, .white, [], none⟩

/-- Pawn direction: `1 if color == WHITE else -1`. -/
def pawnDir : Color → Int
  | .white => 1
  | .black => -1

/-- `_get_pawn_moves`: forward step, double step from an unmoved pawn, the
two diagonal captures, and the en passant append (the source appends the en
passant square independently of occupancy). -/
def getPawnMoves (g : Game) (fromPos : Position) (piece : Piece) : List Position :=
  let dir := pawnDir piece.color
  let fwd := fromPos.offset dir 0
  let forwardMoves :=
    if fwd.isValid ∧ g.board.get fwd = none then
      [fwd] ++
        (if ¬piece.hasMoved then
          let dbl := fromPos.offset (2 * dir) 0
          if dbl.isValid ∧ g.board.get dbl = none then [dbl] else []
        else [])
    else []
  let capMoves := ([-1, 1] : List Int).flatMap (fun colOffset =>
    let cap := fromPos.offset dir colOffset
    if cap.isValid then
      (match g.board.get cap with
       | some tp => if tp.color ≠ piece.color then [cap] else []
       | none => []) ++
      (if g.enPassantTarget = some cap then [cap] else [])
    else [])
  forwardMoves ++ capMoves

/-- One direction of `_get_sliding_moves`: walk from `pos` one step at a
time; stop on leaving the board, include-and-stop on an enemy piece, stop on
an own piece.  The fuel bound 8 is exact: a ray meets at most 8 valid
squares, and the walk only continues through empty valid squares. -/
def slideRay (g : Game) (c : Color) : Position → Int × Int → Nat → List Position
  | _, _, 0 => []
  | pos, d, n + 1 =>
      let next := pos.offset d.1 d.2
      if next.isValid then
        match g.board.get next with
        | none => next :: slideRay g c next d n
        | some tp => if tp.color ≠ c then [next] else []
      else []

/-- `_get_sliding_moves`. -/
def getSlidingMoves (g : Game) (fromPos : Position) (piece : Piece)
    (directions : List (Int × Int)) : List Position :=
  directions.flatMap (fun d => slideRay g piece.color fromPos d 8)

/-- `_get_rook_moves`. -/
def getRookMoves (g : Game) (fromPos : Position) (piece : Piece) : List Position :=
  getSlidingMoves g fromPos piece [(0, 1), (0, -1), (1, 0), (-1, 0)]

/-- `_get_bishop_moves`. -/
def getBishopMoves (g : Game) (fromPos : Position) (piece : Piece) : List Position :=
  getSlidingMoves g fromPos piece [(1, 1), (1, -1), (-1, 1), (-1, -1)]

/-- `_get_queen_moves`. -/
def getQueenMoves (g : Game) (fromPos : Position) (piece : Piece) : List Position :=
  getSlidingMoves g fromPos piece
    [(0, 1), (0, -1), (1, 0), (-1, 0), (1, 1), (1, -1), (-1, 1), (-1, -1)]

/-- The knight offset table of `_get_knight_moves`. -/
def knightOffsets : List (Int × Int) :=
  [(2, 1), (2, -1), (-2, 1), (-2, -1), (1, 2), (1, -2), (-1, 2), (-1, -2)]

/-- A fixed-offset piece step: destination kept iff on the board and not
occupied by an own piece (the body of the knight loop). -/
def leaperMoves (g : Game) (fromPos : Position) (piece : Piece)
    (offsets : List (Int × Int)) : List Position :=
  offsets.filterMap (fun o =>
    let toPos := fromPos.offset o.1 o.2
    if toPos.isValid then
      match g.board.get toPos with
      | none => some toPos
      | some tp => if tp.color ≠ piece.color then some toPos else none
    else none)

/-- `_get_knight_moves`. -/
def getKnightMoves (g : Game) (fromPos : Position) (piece : Piece) : List Position :=
  leaperMoves g fromPos piece knightOffsets

/-- The adjacent-square offsets of the king loops, in the nested-loop order
of the source. -/
def kingOffsets : List (Int × Int) :=
  [(-1, -1), (-1, 0), (-1, 1), (0, -1), (0, 1), (1, -1), (1, 0), (1, 1)]

/-- The regular (non-castling) part of `_get_king_moves`. -/
def kingAdjacentMoves (g : Game) (fromPos : Position) (piece : Piece) : List Position :=
  leaperMoves g fromPos piece kingOffsets

/-- `_get_pawn_attacking_squares`: the two diagonal squares, validity only. -/
def getPawnAttackingSquares (fromPos : Position) (piece : Piece) : List Position :=
  ([-1, 1] : List Int).filterMap (fun colOffset =>
    let attackPos := fromPos.offset (pawnDir piece.color) colOffset
    if attackPos.isValid then some attackPos else none)

/-- `_get_king_attacking_squares`: all adjacent squares, validity only. -/
def getKingAttackingSquares (fromPos : Position) : List Position :=
  kingOffsets.filterMap (fun o =>
    let attackPos := fromPos.offset o.1 o.2
    if attackPos.isValid then some attackPos else none)

/-- The per-piece dispatch inside `_is_position_under_attack`. -/
def attackingMoves (g : Game) (piecePos : Position) (piece : Piece) : List Position :=
  match piece.pieceType with
  | .pawn => getPawnAttackingSquares piecePos piece
  | .knight => getKnightMoves g piecePos piece
  | .bishop => getBishopMoves g piecePos piece
  | .rook => getRookMoves g piecePos piece
  | .queen => getQueenMoves g piecePos piece
  | .king => getKingAttackingSquares piecePos

/-- `_is_position_under_attack(pos, by_color)`: some piece of the color
opposite to `byColor` attacks `pos`. -/
def isPositionUnderAttack (g : Game) (pos : Position) (byColor : Color) : Bool :=
  let opponentColor := byColor.opposite
  g.board.any (fun e =>
    decide (e.2.color = opponentColor) && decide (pos ∈ attackingMoves g e.1 e.2))

/-- `is_in_check(color)`: the first king of that color in board insertion
order is under attack; `false` when no king is present. -/
def isInCheck (g : Game) (color : Color) : Bool :=
  match g.board.find? (fun e =>
      decide (e.2.pieceType = PieceType.king) && decide (e.2.color = color)) with
  | none => false
  | some e => isPositionUnderAttack g e.1 color

/-- The integer range `range(a, b)` of Python. -/
def intRange (a b : Int) : List Int :=
  (List.range (b - a).toNat).map (fun i => a + (i : Int))

/-- The kingside castling block of `_get_king_moves`: corner rook present,
of rook type, unmoved; squares strictly between king and rook empty; the two
transit squares not under attack.  Yields at most the two-file destination. -/
def kingsideCastleList (g : Game) (fromPos : Position) (piece : Piece) : List Position :=
  match g.board.get ⟨fromPos.row, 7⟩ with
  | some rk =>
      if rk.pieceType = PieceType.rook ∧ ¬rk.hasMoved then
        if (intRange (fromPos.col + 1) 7).all
            (fun c => (g.board.get ⟨fromPos.row, c⟩).isNone) then
          if isPositionUnderAttack g (fromPos.offset 0 1) piece.color = false ∧
             isPositionUnderAttack g (fromPos.offset 0 2) piece.color = false then
            [fromPos.offset 0 2]
          else []
        else []
      else []
  | none => []

/-- The queenside castling block of `_get_king_moves`, mirroring the
kingside one. -/
def queensideCastleList (g : Game) (fromPos : Position) (piece : Piece) : List Position :=
  match g.board.get ⟨fromPos.row, 0⟩ with
  | some rk =>
      if rk.pieceType = PieceType.rook ∧ ¬rk.hasMoved then
        if (intRange 1 fromPos.col).all
            (fun c => (g.board.get ⟨fromPos.row, c⟩).isNone) then
          if isPositionUnderAttack g (fromPos.offset 0 (-1)) piece.color = false ∧
             isPositionUnderAttack g (fromPos.offset 0 (-2)) piece.color = false then
            [fromPos.offset 0 (-2)]
          else []
        else []
      else []
  | none => []

/-- `_get_king_moves`: eight adjacent squares plus the castling blocks, the
latter gated by the king being unmoved and not currently in check. -/
def getKingMoves (g : Game) (fromPos : Position) (piece : Piece) : List Position :=
  let adj := kingAdjacentMoves g fromPos piece
  if ¬piece.hasMoved ∧ isInCheck g piece.color = false then
    adj ++ kingsideCastleList g fromPos piece ++ queensideCastleList g fromPos piece
  else adj

/-- The piece-type dispatch of `get_possible_moves` (pseudo-legal moves). -/
def pseudoMoves (g : Game) (fromPos : Position) (piece : Piece) : List Position :=
  match piece.pieceType with
  | .pawn => getPawnMoves g fromPos piece
  | .rook => getRookMoves g fromPos piece
  | .knight => getKnightMoves g fromPos piece
  | .bishop => getBishopMoves g fromPos piece
  | .queen => getQueenMoves g fromPos piece
  | .king => getKingMoves g fromPos piece

/-- `_execute_move_on_board`: en passant pawn removal, castling rook
relocation, then moving the piece (`board[to] = piece; del board[from]`). -/
def executeMoveOnBoard (g : Game) (fromPos toPos : Position) : Game :=
  match g.board.get fromPos with
  | none => g
  | some piece =>
      let b0 :=
        if piece.pieceType = PieceType.pawn ∧ g.enPassantTarget = some toPos then
          g.board.del (toPos.offset (-(pawnDir piece.color)) 0)
        else g.board
      let b1 :=
        if piece.pieceType = PieceType.king ∧ (toPos.col - fromPos.col).natAbs = 2 then
          let rookFrom : Position :=
            if 0 < toPos.col - fromPos.col then ⟨fromPos.row, 7⟩ else ⟨fromPos.row, 0⟩
          let rookTo : Position :=
            if 0 < toPos.col - fromPos.col then ⟨fromPos.row, 5⟩ else ⟨fromPos.row, 3⟩
          match b0.get rookFrom with
          | some rk => (b0.set rookTo rk).del rookFrom
          | none => b0
        else b0
      { g with board := (b1.set toPos piece).del fromPos }

/-- `_is_legal_move`, with the mutation and restore made explicit: save the
board and en passant target, execute the move, read the check status, then
put the saved values back.  Returns the verdict and the restored state. -/
def isLegalMoveSt (g : Game) (fromPos toPos : Position) : Bool × Game :=
  let originalBoard := g.board
  let originalEnPassant := g.enPassantTarget
  let g1 := executeMoveOnBoard g fromPos toPos
  let verdict :=
    match getPiece g1 toPos with
    | none => false
    | some piece => !(isInCheck g1 piece.color)
  (verdict, { g1 with board := originalBoard, enPassantTarget := originalEnPassant })

/-- The legality-filter loop of `get_possible_moves`, threading the state
through each `_is_legal_move` call. -/
def filterLegalSt (g : Game) (fromPos : Position) :
    List Position → List Position × Game
  | [] => ([], g)
  | toPos :: rest =>
      let r1 := isLegalMoveSt g fromPos toPos
      let r2 := filterLegalSt r1.2 fromPos rest
      (if r1.1 then toPos :: r2.1 else r2.1, r2.2)

/-- `get_possible_moves`, threading the state through the legality filter. -/
def getPossibleMovesSt (g : Game) (fromPos : Position) : List Position × Game :=
  match getPiece g fromPos with
  | none => ([], g)
  | some piece =>
      if piece.color ≠ g.currentTurn then ([], g)
      else filterLegalSt g fromPos (pseudoMoves g fromPos piece)

/-- The committed part of `make_move` (everything after the validation
checks): move record, board execution, promotion, en passant bookkeeping,
moved flag, history append and turn flip, in source order. -/
def makeMoveCommit (g : Game) (fromPos toPos : Position)
    (promotionPieceType : Option PieceType) (piece : Piece) : Game :=
  let isCastling := piece.pieceType = PieceType.king ∧
    (toPos.col - fromPos.col).natAbs = 2
  let isEnPassant := piece.pieceType = PieceType.pawn ∧
    g.enPassantTarget = some toPos
  let capturedPiece :=
    if isEnPassant then getPiece g (toPos.offset (-(pawnDir piece.color)) 0)
    else getPiece g toPos
  let mv : Move :=
    ⟨fromPos, toPos, piece, capturedPiece, decide isCastling, decide isEnPassant,
      promotionPieceType⟩
  let g1 := executeMoveOnBoard g fromPos toPos
  let promotionRow : Int := if piece.color = Color.white then 7 else 0
  let b2 :=
    if piece.pieceType = PieceType.pawn ∧ toPos.row = promotionRow then
      g1.board.set toPos ⟨promotionPieceType.getD PieceType.queen, piece.color, true⟩
    else g1.board
  let newEnPassant :=
    if piece.pieceType = PieceType.pawn ∧ (toPos.row - fromPos.row).natAbs = 2 then
      some (fromPos.offset (pawnDir piece.color) 0)
    else none
  let b3 :=
    match b2.get toPos with
    | some movedPiece => b2.set toPos { movedPiece with hasMoved := true }
    | none => b2
  { board := b3, currentTurn := g.currentTurn.opposite,
    moveHistory := g.moveHistory ++ [mv], enPassantTarget := newEnPassant }

/-- `make_move`: validation (origin occupied, mover owns the piece, the
destination is a possible move) and then the commit; failures return the
state the legality filter left behind. -/
def makeMoveSt (g : Game) (fromPos toPos : Position)
    (promotionPieceType : Option PieceType) : Bool × Game :=
  match getPiece g fromPos with
  | none => (false, g)
  | some piece =>
      if piece.color ≠ g.currentTurn then (false, g)
      else
        let r := getPossibleMovesSt g fromPos
        if toPos ∈ r.1 then
          (true, makeMoveCommit r.2 fromPos toPos promotionPieceType piece)
        else (false, r.2)

/-- `is_checkmate`: in check and no own piece has a possible move. -/
def isCheckmate (g : Game) : Bool :=
  if isInCheck g g.currentTurn = false then false
  else g.board.all (fun e =>
    !(decide (e.2.color = g.currentTurn) && !(getPossibleMovesSt g e.1).1.isEmpty))

/-- `is_stalemate`: not in check and no own piece has a possible move. -/
def isStalemate (g : Game) : Bool :=
  if isInCheck g g.currentTurn = true then false
  else g.board.all (fun e =>
    !(decide (e.2.color = g.currentTurn) && !(getPossibleMovesSt g e.1).1.isEmpty))

/-- `is_game_over`. -/
def isGameOver (g : Game) : Bool :=
  isCheckmate g || isStalemate g

/-- Round-half-to-even on a rational, modelling Python's `round` to an
integer number of units. -/
def roundHalfEven (q : ℚ) : Int :=
  let f := ⌊q⌋
  let r := q - (f : ℚ)
  if r < 1 / 2 then f
  else if 1 / 2 < r then f + 1
  else if f % 2 = 0 then f else f + 1

/-- Python's `round(x, 1)`: round to one decimal place. -/
def roundTenth (q : ℚ) : ℚ :=
  ((roundHalfEven (q * 10) : ℚ)) / 10

/-- `STARTING_TIME_SECONDS` of main.py. -/
def startingTimeSeconds : ℚ := 180

/-- `INCREMENT_SECONDS` of main.py. -/
def incrementSeconds : ℚ := 3

/-- A stored premove message: from square, to square, and the raw promotion
string (converted to a `PieceType` only when the premove is applied). -/
structure PremoveData where
  fromPos : Position
  toPos : Position
  promotion : Option String
deriving DecidableEq, Repr

/-- The mutable per-match state of a `Room` in main.py that the session
logic touches: the game, the per-player premove slots (player 1 is white,
player 2 black), the terminal flag, the two clocks and the last-move
timestamp.  Wall-clock reads (`time.time()`) are passed in explicitly. -/
structure RoomState where
  game : Game
  premoveWhite : Option PremoveData
  premoveBlack : Option PremoveData
  gameEnded : Bool
  timeWhite : ℚ
  timeBlack : ℚ
  lastMoveTime : Option ℚ
deriving DecidableEq, Repr

/-- `time_remaining[color]`. -/
def RoomState.timeOf (r : RoomState) : Color → ℚ
  | .white => r.timeWhite
  | .black => r.timeBlack

/-- Assignment to `time_remaining[color]`. -/
def RoomState.setTime (r : RoomState) (c : Color) (t : ℚ) : RoomState :=
  match c with
  | .white => { r with timeWhite := t }
  | .black => { r with timeBlack := t }

/-- The premove slot of a player. -/
def RoomState.premoveOf (r : RoomState) : Color → Option PremoveData
  | .white => r.premoveWhite
  | .black => r.premoveBlack

/-- Store a premove (overwrites any existing one). -/
def RoomState.setPremove (r : RoomState) (c : Color) (d : PremoveData) : RoomState :=
  match c with
  | .white => { r with premoveWhite := some d }
  | .black => { r with premoveBlack := some d }

/-- Clear a player's premove slot. -/
def RoomState.clearPremove (r : RoomState) (c : Color) : RoomState :=
  match c with
  | .white => { r with premoveWhite := none }
  | .black => { r with premoveBlack := none }

/-- `Room.subtract_time_for_move`: no-op except for stamping the clock on
the first move; otherwise subtract the elapsed time (or the fixed 0.1 s
premove penalty), floor at zero, add the increment, each step rounded to one
decimal as in the source, and restamp `last_move_time`. -/
def subtractTimeForMove (r : RoomState) (now : ℚ) (isPremove : Bool) : RoomState :=
  match r.lastMoveTime with
  | none => { r with lastMoveTime := some now }
  | some lastTime =>
      let elapsed := now - lastTime
      let playerWhoMoved := r.game.currentTurn.opposite
      let t0 := r.timeOf playerWhoMoved
      let t1 :=
        if isPremove then max 0 (roundTenth (t0 - 1 / 10))
        else max 0 (roundTenth (t0 - elapsed))
      let t2 := roundTenth (t1 + incrementSeconds)
      { r.setTime playerWhoMoved t2 with lastMoveTime := some now }

/-- `Room.is_valid_premove`: origin occupied by a piece of the player, and
both squares on the board. -/
def isValidPremove (r : RoomState) (fromPos toPos : Position) (playerColor : Color) :
    Bool :=
  match getPiece r.game fromPos with
  | none => false
  | some piece =>
      decide (piece.color = playerColor) && fromPos.isValid && toPos.isValid

/-- The replies the move-handling branch of `websocket_endpoint` can send to
the submitting player or broadcast. -/
inductive Reply where
  | premoveSet
  | errorInvalidPremove
  | errorInvalidPromotion
  | boardState
  | gameOver
  | errorInvalidMove
deriving DecidableEq, Repr

/-- The premove-application block that runs after a successful move when the
opponent has a premove stored: convert the promotion string (a failed
conversion silently becomes `None`), attempt the move, clear the slot
regardless, and on success do the premove clock accounting and terminal
check. -/
def applyOpponentPremove (r : RoomState) (opponent : Color) (d : PremoveData)
    (now : ℚ) : RoomState × List Reply :=
  let premovePromotion := d.promotion.bind pieceTypeOfString
  let res := makeMoveSt r.game d.fromPos d.toPos premovePromotion
  let r1 := ({ r with game := res.2 } : RoomState).clearPremove opponent
  if res.1 then
    let r2 := subtractTimeForMove r1 now true
    if isGameOver r2.game then
      ({ r2 with gameEnded := true }, [.boardState, .gameOver])
    else ({ r2 with lastMoveTime := some now }, [.boardState])
  else (r1, [])

/-- The `"move"` branch of `websocket_endpoint` for a player already in a
room, from the turn check onward: out-of-turn submissions become premoves;
an unknown promotion string is rejected; otherwise `make_move` is attempted,
followed by clock accounting, terminal detection and the opponent-premove
block.  `start_time_tracking` is modelled by its `last_move_time` stamp.
Note that the source never consults `game_ended` on this path. -/
def handleMoveMsg (r : RoomState) (playerColor : Color) (fromPos toPos : Position)
    (promotionStr : Option String) (now : ℚ) : RoomState × List Reply :=
  if playerColor ≠ r.game.currentTurn then
    if isValidPremove r fromPos toPos playerColor then
      (r.setPremove playerColor ⟨fromPos, toPos, promotionStr⟩, [.premoveSet])
    else (r, [.errorInvalidPremove])
  else
    let promotion :=
      match promotionStr with
      | none => some (none : Option PieceType)
      | some s =>
          match pieceTypeOfString s with
          | none => none
          | some t => some (some t)
    match promotion with
    | none => (r, [.errorInvalidPromotion])
    | some promo =>
        let res := makeMoveSt r.game fromPos toPos promo
        if res.1 then
          let r1 := subtractTimeForMove { r with game := res.2 } now false
          let r2 := r1.clearPremove playerColor
          if isGameOver r2.game then
            ({ r2 with gameEnded := true }, [.boardState, .gameOver])
          else
            let r3 := { r2 with lastMoveTime := some now }
            match r3.premoveOf playerColor.opposite with
            | none => (r3, [.boardState])
            | some d =>
                let res2 := applyOpponentPremove r3 playerColor.opposite d now
                (res2.1, .boardState :: res2.2)
        else ({ r with game := res.2 }, [.errorInvalidMove])

/-- The movement rule table: the pseudo-legal generator selected for a
given piece type (the dispatch of `get_possible_moves`, keyed by type). -/
def movesForType (ty : PieceType) (g : Game) (pos : Position) (piece : Piece) :
    List Position :=
  match ty with
  | .pawn => getPawnMoves g pos piece
  | .rook => getRookMoves g pos piece
  | .knight => getKnightMoves g pos piece
  | .bishop => getBishopMoves g pos piece
  | .queen => getQueenMoves g pos piece
  | .king => getKingMoves g pos piece

/-- The kingside castling gates, as the specification lists them: king
unmoved, king not in check, an unmoved rook on the kingside corner of the
king's rank, every square strictly between king and rook empty, and neither
transit square attacked by the opponent. -/
def kingsideGates (g : Game) (s : Position) (p : Piece) : Prop :=
  p.hasMoved = false ∧ isInCheck g p.color = false ∧
  (∃ rk, g.board.get ⟨s.row, 7⟩ = some rk ∧
    rk.pieceType = PieceType.rook ∧ rk.hasMoved = false) ∧
  (∀ c ∈ intRange (s.col + 1) 7, g.board.get ⟨s.row, c⟩ = none) ∧
  isPositionUnderAttack g (s.offset 0 1) p.color = false ∧
  isPositionUnderAttack g (s.offset 0 2) p.color = false

/-- The queenside castling gates, mirroring `kingsideGates`. -/
def queensideGates (g : Game) (s : Position) (p : Piece) : Prop :=
  p.hasMoved = false ∧ isInCheck g p.color = false ∧
  (∃ rk, g.board.get ⟨s.row, 0⟩ = some rk ∧
    rk.pieceType = PieceType.rook ∧ rk.hasMoved = false) ∧
  (∀ c ∈ intRange 1 s.col, g.board.get ⟨s.row, c⟩ = none) ∧
  isPositionUnderAttack g (s.offset 0 (-1)) p.color = false ∧
  isPositionUnderAttack g (s.offset 0 (-2)) p.color = false

/-- `_sleep_until_timeout` reaching its alarm body followed by
`_handle_time_expiration`: zero the clock, set the terminal flag, report the
win on time.  The source version never consults `game_ended` first. -/
def fireAlarm (r : RoomState) (c : Color) : RoomState × List Reply :=
  ({ r.setTime c 0 with gameEnded := true }, [.gameOver])

/-- A reduced position used as a concrete test state: white king e1, white
pawn e2, black king e8, white to move. -/
def miniGame : Game :=
  ⟨[(⟨0, 4⟩, ⟨.king, .white, false⟩), (⟨1, 4⟩, ⟨.pawn, .white, false⟩),
    (⟨7, 4⟩, ⟨.king, .black, false⟩)], .white, [], none⟩

/-- A concrete position in which every kingside castling gate holds: white
king e1 and rook h1 (both unmoved), black king e8, white to move. -/
def castleGame : Game :=
  ⟨[(⟨0, 4⟩, ⟨.king, .white, false⟩), (⟨0, 7⟩, ⟨.rook, .white, false⟩),
    (⟨7, 4⟩, ⟨.king, .black, false⟩)], .white, [], none⟩

/-- A concrete position for promotion: white king e1, white pawn a7
(already moved), black king h8, white to move. -/
def promoGame : Game :=
  ⟨[(⟨0, 4⟩, ⟨.king, .white, false⟩), (⟨6, 0⟩, ⟨.pawn, .white, true⟩),
    (⟨7, 7⟩, ⟨.king, .black, false⟩)], .white, [], none⟩

/-- A room whose terminal flag is already set (as after a time expiry) but
whose game is still mid-position with white to move. -/
def endedRoom : RoomState :=
  ⟨miniGame, none, none, true, 180, 180, some 0⟩

/-- A live room with black to move (so white is the player who just moved),
full clocks, and a last-move stamp at time 0. -/
def exampleRoom : RoomState :=
  ⟨⟨[], .black, [], none⟩, none, none, false, 180, 180, some 0⟩

/-- Looking up the key just assigned returns the assigned value. -/
theorem Board.get_set_self (b : Board) (p : Position) (pc : Piece) :
    (b.set p pc).get p = some pc := by
  induction b with
  | nil => simp [Board.set, Board.get]
  | cons e rest ih =>
      by_cases h : e.1 = p
      · simp [Board.set, Board.get, h]
      · simp [Board.set, Board.get, h, ih]

/-- `_is_legal_move` hands back exactly the state it was given: the saved
board and en passant target are restored and no other field was touched. -/
theorem isLegalMoveSt_snd (g : Game) (fromPos toPos : Position) :
    (isLegalMoveSt g fromPos toPos).2 = g := by
  unfold isLegalMoveSt executeMoveOnBoard
  cases h : g.board.get fromPos <;> simp

/-- The legality-filter loop keeps the list it was given filtered by the
verdicts and returns the state unchanged. -/
theorem filterLegalSt_eq (g : Game) (fromPos : Position) (l : List Position) :
    filterLegalSt g fromPos l =
      (l.filter (fun toPos => (isLegalMoveSt g fromPos toPos).1), g) := by
  induction l with
  | nil => rfl
  | cons a l ih =>
      simp only [filterLegalSt, isLegalMoveSt_snd, ih, List.filter_cons]

/-- `get_possible_moves` returns the state it was given. -/
theorem getPossibleMovesSt_snd (g : Game) (fromPos : Position) :
    (getPossibleMovesSt g fromPos).2 = g := by
  unfold getPossibleMovesSt
  cases h : getPiece g fromPos with
  | none => rfl
  | some piece =>
      by_cases hc : piece.color ≠ g.currentTurn
      · simp [hc]
      · simp [hc, filterLegalSt_eq]

/-- When the mover owns the piece at the origin, the possible-move list is
the pseudo-legal list filtered by the legality trial. -/
theorem getPossibleMovesSt_fst (g : Game) (fromPos : Position) (piece : Piece)
    (hp : getPiece g fromPos = some piece) (hc : piece.color = g.currentTurn) :
    (getPossibleMovesSt g fromPos).1 =
      (pseudoMoves g fromPos piece).filter
        (fun toPos => (isLegalMoveSt g fromPos toPos).1) := by
  unfold getPossibleMovesSt
  rw [hp]
  simp [hc, filterLegalSt_eq]

/-- A successful `make_move` ran the full validation and committed: the
mover owned the origin piece, the destination was a possible move, and the
final state is the commit applied to the original state. -/
theorem makeMoveSt_success (g g' : Game) (fromPos toPos : Position)
    (promo : Option PieceType) (piece : Piece)
    (hp : getPiece g fromPos = some piece)
    (h : makeMoveSt g fromPos toPos promo = (true, g')) :
    piece.color = g.currentTurn ∧ toPos ∈ (getPossibleMovesSt g fromPos).1 ∧
    g' = makeMoveCommit g fromPos toPos promo piece := by
  simp only [makeMoveSt, hp, getPossibleMovesSt_snd] at h
  by_cases hc : piece.color = g.currentTurn
  · simp only [hc, ne_eq, not_true_eq_false, if_false] at h
    by_cases hm : toPos ∈ (getPossibleMovesSt g fromPos).1
    · simp only [hm, if_pos] at h
      exact ⟨hc, hm, (Prod.mk.injEq _ _ _ _ ▸ h).2.symm⟩
    · simp [hm] at h
  · simp [hc] at h

/-- C1: a move rejected because the origin is empty, the piece there does
not belong to the side to move, or the destination is not among the legal
destinations of the origin, makes `make_move` return failure with the board
mapping, current turn, move history and en passant target all unchanged. -/
theorem make_move_rejection_frame (g : Game) (fromPos toPos : Position)
    (promo : Option PieceType)
    (h : getPiece g fromPos = none ∨
         (∃ piece, getPiece g fromPos = some piece ∧ piece.color ≠ g.currentTurn) ∨
         toPos ∉ (getPossibleMovesSt g fromPos).1) :
    makeMoveSt g fromPos toPos promo = (false, g) := by
  cases hp : getPiece g fromPos with
  | none => simp [makeMoveSt, hp]
  | some piece =>
      rcases h with h | ⟨q, hq, hqc⟩ | h
      · simp [hp] at h
      · rw [hp] at hq
        injection hq with hq
        subst hq
        simp [makeMoveSt, hp, hqc]
      · by_cases hc : piece.color = g.currentTurn
        · simp [makeMoveSt, hp, hc, h, getPossibleMovesSt_snd]
        · simp [makeMoveSt, hp, hc]

/-- Witness for C1 at a concrete input: square d4 of the fresh game is
empty, and `make_move` from it fails and returns the game unchanged. -/
theorem make_move_rejection_frame_witness :
    getPiece initialGame ⟨3, 3⟩ = none ∧
    makeMoveSt initialGame ⟨3, 3⟩ ⟨4, 3⟩ none = (false, initialGame) :=
  ⟨by decide, make_move_rejection_frame initialGame ⟨3, 3⟩ ⟨4, 3⟩ none
    (Or.inl (by decide))⟩

/-- C10: the legality query `get_possible_moves` hands back exactly the
observable state it was given — board mapping, current turn, move history
and en passant target — even though each candidate is trial-applied. -/
theorem get_possible_moves_leaves_state (g : Game) (fromPos : Position) :
    (getPossibleMovesSt g fromPos).2 = g :=
  getPossibleMovesSt_snd g fromPos

/-- C2: checkmate holds iff the side to move is in check and every one of
its pieces has an empty legal-destination set; stalemate holds iff it is not
in check and every one of its pieces has an empty legal-destination set; the
two are never both true. -/
theorem checkmate_stalemate_spec (g : Game) :
    (isCheckmate g = true ↔
      (isInCheck g g.currentTurn = true ∧
        ∀ e ∈ g.board, e.2.color = g.currentTurn → (getPossibleMovesSt g e.1).1 = [])) ∧
    (isStalemate g = true ↔
      (isInCheck g g.currentTurn = false ∧
        ∀ e ∈ g.board, e.2.color = g.currentTurn → (getPossibleMovesSt g e.1).1 = [])) ∧
    ¬(isCheckmate g = true ∧ isStalemate g = true) := by
  have hall : (g.board.all (fun e =>
      !(decide (e.2.color = g.currentTurn) && !(getPossibleMovesSt g e.1).1.isEmpty)) = true)
      ↔ (∀ e ∈ g.board, e.2.color = g.currentTurn → (getPossibleMovesSt g e.1).1 = []) := by
    rw [List.all_eq_true]
    constructor
    · intro h e he hcol
      have h2 := h e he
      simp only [hcol, decide_True, Bool.true_and, Bool.not_not] at h2
      simpa [List.isEmpty_iff] using h2
    · intro h e he
      by_cases hcol : e.2.color = g.currentTurn
      · simp [hcol, List.isEmpty_iff, h e he hcol]
      · simp [hcol]
  have hmate : isCheckmate g = true ↔
      (isInCheck g g.currentTurn = true ∧
        ∀ e ∈ g.board, e.2.color = g.currentTurn → (getPossibleMovesSt g e.1).1 = []) := by
    constructor
    · intro h
      unfold isCheckmate at h
      split at h
      · simp at h
      · rename_i hc
        simp only [Bool.not_eq_false] at hc
        exact ⟨hc, hall.mp h⟩
    · rintro ⟨hc, h⟩
      unfold isCheckmate
      rw [if_neg (by simp [hc])]
      exact hall.mpr h
  have hstale : isStalemate g = true ↔
      (isInCheck g g.currentTurn = false ∧
        ∀ e ∈ g.board, e.2.color = g.currentTurn → (getPossibleMovesSt g e.1).1 = []) := by
    constructor
    · intro h
      unfold isStalemate at h
      split at h
      · simp at h
      · rename_i hc
        simp only [Bool.not_eq_true] at hc
        exact ⟨hc, hall.mp h⟩
    · rintro ⟨hc, h⟩
      unfold isStalemate
      rw [if_neg (by simp [hc])]
      exact hall.mpr h
  refine ⟨hmate, hstale, ?_⟩
  rintro ⟨h1, h2⟩
  have hc1 := (hmate.mp h1).1
  have hc2 := (hstale.mp h2).1
  rw [hc1] at hc2
  exact Bool.true_eq_false ▸ hc2 ▸ rfl

/-- C9: for every valid square, converting to algebraic notation and
parsing back returns the original square. -/
theorem algebraic_roundtrip (p : Position) (h : p.isValid = true) :
    Position.fromAlgebraic (Position.toAlgebraic p) = some p := by
  obtain ⟨r, c⟩ := p
  simp only [Position.isValid, Bool.and_eq_true, decide_eq_true_eq] at h
  obtain ⟨⟨⟨h1, h2⟩, h3⟩, h4⟩ := h
  interval_cases r <;> interval_cases c <;> decide

/-- Witness for C9 at the concrete square e4. -/
theorem algebraic_roundtrip_witness :
    (Position.isValid ⟨3, 4⟩ = true) ∧
    Position.fromAlgebraic (Position.toAlgebraic ⟨3, 4⟩) = some ⟨3, 4⟩ :=
  ⟨by decide, algebraic_roundtrip ⟨3, 4⟩ (by decide)⟩

/-- C8 (refuting the claimed enum contents): every member of the `PieceType`
enumeration carries one of the six standard value strings, and none of the
fairy names the specification lists is the value of any member — so a fairy
lookup such as `PieceType("mann")` (or the attribute `PieceType.MANN` that
`_get_theoretical_moves` in main.py dereferences) cannot denote a member. -/
theorem pieceType_fairy_members_absent :
    (∀ t : PieceType, t ∈ allPieceTypes) ∧
    (∀ t : PieceType, pieceTypeValues.contains t.value = true ∧
        fairyTypeNames.contains t.value = false) ∧
    (fairyTypeNames.all (fun n => !(pieceTypeValues.contains n))) = true := by
  refine ⟨fun t => ?_, fun t => ?_, by decide⟩
  · cases t <;> decide
  · cases t <;> exact ⟨by decide, by decide⟩

/-- Rounding an integer-valued rational is the identity. -/
theorem roundHalfEven_intCast (n : Int) : roundHalfEven (n : ℚ) = n := by
  unfold roundHalfEven
  norm_num [Int.floor_intCast]

/-- Rounding to one decimal is the identity on exact multiples of 1/10. -/
theorem roundTenth_int_div_ten (n : Int) : roundTenth ((n : ℚ) / 10) = (n : ℚ) / 10 := by
  unfold roundTenth
  rw [div_mul_cancel₀ _ (by norm_num : (10 : ℚ) ≠ 0), roundHalfEven_intCast]

/-- Flooring at zero commutes with the /10 scaling. -/
theorem max_zero_div_ten (m : Int) :
    max 0 ((m : ℚ) / 10) = ((max 0 m : Int) : ℚ) / 10 := by
  rcases le_total m 0 with h | h
  · have hm : (m : ℚ) ≤ 0 := by exact_mod_cast h
    rw [max_eq_left (by linarith : (m : ℚ) / 10 ≤ 0), max_eq_left h]
    simp
  · have hm : (0 : ℚ) ≤ (m : ℚ) := by exact_mod_cast h
    rw [max_eq_right (by linarith : (0 : ℚ) ≤ (m : ℚ) / 10), max_eq_right h]

/-- The time fields are untouched by a `last_move_time` restamp. -/
theorem timeOf_lastMoveTime (r : RoomState) (c : Color) (v : Option ℚ) :
    ({ r with lastMoveTime := v } : RoomState).timeOf c = r.timeOf c := by
  cases c <;> rfl

/-- Reading the clock just written. -/
theorem timeOf_setTime_self (r : RoomState) (c : Color) (t : ℚ) :
    (r.setTime c t).timeOf c = t := by
  cases c <;> rfl

/-- The final rounding in `subtract_time_for_move` is the identity, because
its argument is already an exact multiple of one tenth. -/
theorem roundTenth_fix (q : ℚ) :
    roundTenth (max 0 (roundTenth q) + incrementSeconds)
      = max 0 (roundTenth q) + incrementSeconds := by
  have h1 : roundTenth q = ((roundHalfEven (q * 10) : Int) : ℚ) / 10 := rfl
  rw [h1, max_zero_div_ten]
  have h2 : ((max 0 (roundHalfEven (q * 10)) : Int) : ℚ) / 10 + incrementSeconds
      = (((max 0 (roundHalfEven (q * 10)) + 30 : Int)) : ℚ) / 10 := by
    unfold incrementSeconds
    push_cast
    ring
  rw [h2, roundTenth_int_div_ten]

/-- Unfolding of `subtract_time_for_move` when a last-move stamp exists. -/
theorem subtractTimeForMove_some (r : RoomState) (now lastTime : ℚ) (b : Bool)
    (h0 : r.lastMoveTime = some lastTime) :
    (subtractTimeForMove r now b).timeOf r.game.currentTurn.opposite
      = roundTenth
          ((if b then
              max 0 (roundTenth (r.timeOf r.game.currentTurn.opposite - 1 / 10))
            else
              max 0 (roundTenth (r.timeOf r.game.currentTurn.opposite - (now - lastTime))))
            + incrementSeconds) := by
  simp only [subtractTimeForMove, h0]
  rw [timeOf_lastMoveTime, timeOf_setTime_self]

/-- C7 (amended): on a commit with the mover's clock at T = k/10 seconds
(clock values are always exact tenths), a regular move that took Δ seconds
leaves `max(0, round₁(T − Δ)) + increment` where `round₁` rounds to the
nearest tenth, and a premove application leaves `max(0, T − 0.1) +
increment`. -/
theorem subtract_time_for_move_amended (r : RoomState) (now lastTime : ℚ) (k : Int)
    (h0 : r.lastMoveTime = some lastTime)
    (hT : r.timeOf r.game.currentTurn.opposite = (k : ℚ) / 10) :
    (subtractTimeForMove r now false).timeOf r.game.currentTurn.opposite
      = max 0 (roundTenth ((k : ℚ) / 10 - (now - lastTime))) + incrementSeconds
    ∧ (subtractTimeForMove r now true).timeOf r.game.currentTurn.opposite
      = max 0 ((k : ℚ) / 10 - 1 / 10) + incrementSeconds := by
  constructor
  · rw [subtractTimeForMove_some r now lastTime false h0, if_neg (by simp), hT]
    exact roundTenth_fix _
  · rw [subtractTimeForMove_some r now lastTime true h0, if_pos rfl, hT]
    have e1 : (k : ℚ) / 10 - 1 / 10 = ((k - 1 : Int) : ℚ) / 10 := by
      push_cast
      ring
    rw [e1, roundTenth_int_div_ten, max_zero_div_ten]
    have e2 : ((max 0 (k - 1) : Int) : ℚ) / 10 + incrementSeconds
        = ((max 0 (k - 1) + 30 : Int) : ℚ) / 10 := by
      unfold incrementSeconds
      push_cast
      ring
    rw [e2, roundTenth_int_div_ten]

/-- Witness for the amended C7 at a concrete input: full 180 s clock, a move
that took 0.25 s of wall time. -/
theorem subtract_time_for_move_amended_witness :
    exampleRoom.lastMoveTime = some 0 ∧
    exampleRoom.timeOf exampleRoom.game.currentTurn.opposite = ((1800 : Int) : ℚ) / 10 ∧
    ((subtractTimeForMove exampleRoom (1 / 4) false).timeOf
        exampleRoom.game.currentTurn.opposite
      = max 0 (roundTenth (((1800 : Int) : ℚ) / 10 - (1 / 4 - 0))) + incrementSeconds
    ∧ (subtractTimeForMove exampleRoom (1 / 4) true).timeOf
        exampleRoom.game.currentTurn.opposite
      = max 0 (((1800 : Int) : ℚ) / 10 - 1 / 10) + incrementSeconds) :=
  ⟨rfl, by norm_num [exampleRoom, RoomState.timeOf, Color.opposite],
    subtract_time_for_move_amended exampleRoom (1 / 4) 0 1800 rfl
      (by norm_num [exampleRoom, RoomState.timeOf, Color.opposite])⟩

/-- Counterexample to C7 as stated: with T = 180 and Δ = 0.25 the committed
clock shows 182.8 (the subtraction is rounded to one decimal before the
floor and increment), not the claimed T − Δ + increment = 182.75. -/
theorem clock_formula_counterexample :
    (subtractTimeForMove exampleRoom (1 / 4) false).timeWhite = 1828 / 10 ∧
    max (0 : ℚ) (exampleRoom.timeWhite - 1 / 4) + incrementSeconds = 18275 / 100 ∧
    (subtractTimeForMove exampleRoom (1 / 4) false).timeWhite
      ≠ max (0 : ℚ) (exampleRoom.timeWhite - 1 / 4) + incrementSeconds := by
  refine ⟨?_, ?_, ?_⟩ <;>
    norm_num [subtractTimeForMove, exampleRoom, roundTenth, roundHalfEven,
      RoomState.timeOf, RoomState.setTime, incrementSeconds, Color.opposite]

/-- C4 (refuting the terminal-flag claim at a concrete input): in
`endedRoom` the terminal flag is already set, yet a late move submission by
the player to move is applied — the pawn moves, the turn flips, and a board
state is broadcast — and a late alarm firing still zeroes the clock (it was
180) and reports a second game-over result.  The move handler and the alarm
body never consult `game_ended`. -/
theorem terminal_flag_not_enforced :
    endedRoom.gameEnded = true ∧
    (handleMoveMsg endedRoom Color.white ⟨1, 4⟩ ⟨3, 4⟩ none 5).1.game.currentTurn
      = Color.black ∧
    (handleMoveMsg endedRoom Color.white ⟨1, 4⟩ ⟨3, 4⟩ none 5).1.game.board.get ⟨3, 4⟩
      = some ⟨.pawn, .white, true⟩ ∧
    (handleMoveMsg endedRoom Color.white ⟨1, 4⟩ ⟨3, 4⟩ none 5).2 = [Reply.boardState] ∧
    endedRoom.timeWhite = 180 ∧
    (fireAlarm endedRoom Color.white).1.timeWhite = 0 ∧
    (fireAlarm endedRoom Color.white).2 = [Reply.gameOver] :=
  ⟨rfl, by decide, by decide, by decide, rfl, rfl, rfl⟩

/-- After the commit of a pawn move onto its promotion rank, the destination
square holds a freshly created piece of the requested type (queen when no
type was supplied), same color, marked as moved. -/
theorem makeMoveCommit_promotion (g : Game) (fromPos toPos : Position)
    (promo : Option PieceType) (p : Piece)
    (hpt : p.pieceType = PieceType.pawn)
    (hrow : toPos.row = (if p.color = Color.white then 7 else 0)) :
    (makeMoveCommit g fromPos toPos promo p).board.get toPos
      = some ⟨promo.getD PieceType.queen, p.color, true⟩ := by
  unfold makeMoveCommit
  simp only [hpt, hrow, and_self, ite_true, Board.get_set_self]

/-- C5: when a pawn move onto the farthest rank for its color is committed,
the destination holds a piece of exactly the supplied promotion type (QUEEN
when none was supplied) and the mover's color, and move generation for that
square dispatches on that piece-type value through the movement rule
table. -/
theorem promotion_spec (g g' : Game) (fromPos toPos : Position)
    (promo : Option PieceType) (p : Piece)
    (hp : getPiece g fromPos = some p)
    (hpt : p.pieceType = PieceType.pawn)
    (hrow : toPos.row = (if p.color = Color.white then 7 else 0))
    (h : makeMoveSt g fromPos toPos promo = (true, g')) :
    getPiece g' toPos = some ⟨promo.getD PieceType.queen, p.color, true⟩ ∧
    ∀ q, getPiece g' toPos = some q →
      pseudoMoves g' toPos q = movesForType (promo.getD PieceType.queen) g' toPos q := by
  obtain ⟨hc, hm, hg⟩ := makeMoveSt_success g g' fromPos toPos promo p hp h
  subst hg
  have hb := makeMoveCommit_promotion g fromPos toPos promo p hpt hrow
  refine ⟨hb, ?_⟩
  intro q hq
  rw [show getPiece (makeMoveCommit g fromPos toPos promo p) toPos
      = (makeMoveCommit g fromPos toPos promo p).board.get toPos from rfl, hb] at hq
  injection hq with hq
  subst hq
  cases hty : promo.getD PieceType.queen <;> simp [pseudoMoves, movesForType, hty]

/-- Witness for C5 at a concrete input: the a7 pawn promotes to a rook on
a8 and the new piece is exactly a moved white rook. -/
theorem promotion_spec_witness :
    getPiece promoGame ⟨6, 0⟩ = some ⟨.pawn, .white, true⟩ ∧
    makeMoveSt promoGame ⟨6, 0⟩ ⟨7, 0⟩ (some .rook)
      = (true, (makeMoveSt promoGame ⟨6, 0⟩ ⟨7, 0⟩ (some .rook)).2) ∧
    getPiece (makeMoveSt promoGame ⟨6, 0⟩ ⟨7, 0⟩ (some .rook)).2 ⟨7, 0⟩
      = some ⟨.rook, .white, true⟩ :=
  ⟨by decide, by decide,
    (promotion_spec promoGame (makeMoveSt promoGame ⟨6, 0⟩ ⟨7, 0⟩ (some .rook)).2
      ⟨6, 0⟩ ⟨7, 0⟩ (some .rook) ⟨.pawn, .white, true⟩
      (by decide) rfl (by decide) (by decide)).1⟩

theorem mem_getPawnMoves_row (g : Game) (fromPos : Position) (p : Piece)
    (t : Position) (ht : t ∈ getPawnMoves g fromPos p) :
    t.row = fromPos.row + pawnDir p.color ∨ t = fromPos.offset (2 * pawnDir p.color) 0 := by
  unfold getPawnMoves at ht
  simp only [List.mem_append, List.mem_flatMap] at ht
  rcases ht with ht | ⟨co, hco, ht⟩
  · by_cases h1 : (fromPos.offset (pawnDir p.color) 0).isValid = true ∧
        g.board.get (fromPos.offset (pawnDir p.color) 0) = none
    · rw [if_pos h1] at ht
      rcases List.mem_append.mp ht with h | h
      · left
        have he := List.mem_singleton.mp h
        subst he; rfl
      · by_cases h2 : ¬p.hasMoved
        · rw [if_pos h2] at h
          by_cases h3 : (fromPos.offset (2 * pawnDir p.color) 0).isValid = true ∧
              g.board.get (fromPos.offset (2 * pawnDir p.color) 0) = none
          · rw [if_pos h3] at h
            right
            exact List.mem_singleton.mp h
          · rw [if_neg h3] at h
            exact absurd h (List.not_mem_nil _)
        · rw [if_neg h2] at h
          exact absurd h (List.not_mem_nil _)
    · rw [if_neg h1] at ht
      exact absurd ht (List.not_mem_nil _)
  · by_cases h1 : (fromPos.offset (pawnDir p.color) co).isValid = true
    · rw [if_pos h1] at ht
      rcases List.mem_append.mp ht with h | h
      · rcases hb : g.board.get (fromPos.offset (pawnDir p.color) co) with _ | tp
        · rw [hb] at h
          exact absurd h (List.not_mem_nil _)
        · rw [hb] at h
          have h' : t ∈ (if tp.color ≠ p.color
              then [fromPos.offset (pawnDir p.color) co] else []) := h
          by_cases h2 : tp.color ≠ p.color
          · rw [if_pos h2] at h'
            left
            have he := List.mem_singleton.mp h'
            subst he; rfl
          · rw [if_neg h2] at h'
            exact absurd h' (List.not_mem_nil _)
      · by_cases h2 : g.enPassantTarget = some (fromPos.offset (pawnDir p.color) co)
        · rw [if_pos h2] at h
          left
          have he := List.mem_singleton.mp h
          subst he; rfl
        · rw [if_neg h2] at h
          exact absurd h (List.not_mem_nil _)
    · rw [if_neg h1] at ht
      exact absurd ht (List.not_mem_nil _)

theorem makeMoveCommit_ep (g : Game) (fromPos toPos : Position)
    (promo : Option PieceType) (p : Piece) :
    (makeMoveCommit g fromPos toPos promo p).enPassantTarget
      = if p.pieceType = PieceType.pawn ∧ (toPos.row - fromPos.row).natAbs = 2 then
          some (fromPos.offset (pawnDir p.color) 0)
        else none := rfl

/-- C6: after every committed move, the en passant target is set iff that
move was a pawn double step, and when set it names exactly the square the
pawn skipped over (one step ahead of the origin, with the destination two
steps ahead on the same file); since this holds of every committed move, a
target set by one move is cleared or replaced by the very next one. -/
theorem en_passant_target_spec (g g' : Game) (fromPos toPos : Position)
    (promo : Option PieceType) (p : Piece)
    (hp : getPiece g fromPos = some p)
    (h : makeMoveSt g fromPos toPos promo = (true, g')) :
    (g'.enPassantTarget ≠ none ↔
      (p.pieceType = PieceType.pawn ∧ (toPos.row - fromPos.row).natAbs = 2)) ∧
    (∀ sq, g'.enPassantTarget = some sq →
      sq = fromPos.offset (pawnDir p.color) 0 ∧
      toPos = fromPos.offset (2 * pawnDir p.color) 0) := by
  obtain ⟨hc, hm, hg⟩ := makeMoveSt_success g g' fromPos toPos promo p hp h
  subst hg
  rw [getPossibleMovesSt_fst g fromPos p hp hc] at hm
  have hmem := (List.mem_filter.mp hm).1
  constructor
  · rw [makeMoveCommit_ep]
    split_ifs with hcond
    · simp [hcond]
    · simp [hcond]
  · intro sq hsq
    rw [makeMoveCommit_ep] at hsq
    split_ifs at hsq with hcond
    · obtain ⟨hpt, habs⟩ := hcond
      injection hsq with hsq
      refine ⟨hsq.symm, ?_⟩
      rw [pseudoMoves, hpt] at hmem
      rcases mem_getPawnMoves_row g fromPos p toPos hmem with hr | hr
      · exfalso
        rw [hr] at habs
        cases hcol : p.color <;> rw [hcol] at habs <;> simp [pawnDir] at habs
      · exact hr

/-- Witness for C6 at a concrete input: the double step e2-e4 in the reduced
position sets the en passant target. -/
theorem en_passant_target_spec_witness :
    getPiece miniGame ⟨1, 4⟩ = some ⟨.pawn, .white, false⟩ ∧
    makeMoveSt miniGame ⟨1, 4⟩ ⟨3, 4⟩ none
      = (true, (makeMoveSt miniGame ⟨1, 4⟩ ⟨3, 4⟩ none).2) ∧
    (((makeMoveSt miniGame ⟨1, 4⟩ ⟨3, 4⟩ none).2.enPassantTarget ≠ none ↔
        ((⟨.pawn, .white, false⟩ : Piece).pieceType = PieceType.pawn ∧
          (((⟨3, 4⟩ : Position).row - (⟨1, 4⟩ : Position).row).natAbs = 2))) ∧
      (∀ sq, (makeMoveSt miniGame ⟨1, 4⟩ ⟨3, 4⟩ none).2.enPassantTarget = some sq →
        sq = (⟨1, 4⟩ : Position).offset (pawnDir (⟨.pawn, .white, false⟩ : Piece).color) 0 ∧
        (⟨3, 4⟩ : Position)
          = (⟨1, 4⟩ : Position).offset (2 * pawnDir (⟨.pawn, .white, false⟩ : Piece).color) 0)) :=
  ⟨by decide, by decide,
    en_passant_target_spec miniGame (makeMoveSt miniGame ⟨1, 4⟩ ⟨3, 4⟩ none).2
      ⟨1, 4⟩ ⟨3, 4⟩ none ⟨.pawn, .white, false⟩ (by decide) (by decide)⟩

/-- Offsetting from a fixed square is injective in the offsets. -/
theorem Position.offset_inj (p : Position) (a b c d : Int) :
    p.offset a b = p.offset c d ↔ a = c ∧ b = d := by
  unfold Position.offset
  constructor
  · intro h
    injection h with h1 h2
    omega
  · rintro ⟨rfl, rfl⟩
    rfl

/-- Every adjacent king move is one of the eight fixed offsets. -/
theorem mem_kingAdjacent (g : Game) (s : Position) (p : Piece) (d : Position)
    (hd : d ∈ kingAdjacentMoves g s p) :
    ∃ o ∈ kingOffsets, d = s.offset o.1 o.2 := by
  unfold kingAdjacentMoves leaperMoves at hd
  simp only [List.mem_filterMap] at hd
  obtain ⟨o, ho, h⟩ := hd
  refine ⟨o, ho, ?_⟩
  by_cases hv : (s.offset o.1 o.2).isValid = true
  · rw [if_pos hv] at h
    rcases hb : g.board.get (s.offset o.1 o.2) with _ | tp <;> rw [hb] at h
    · injection h with h
      exact h.symm
    · have h' : (if tp.color ≠ p.color then some (s.offset o.1 o.2) else none)
          = some d := h
      split_ifs at h'
      · injection h' with h'
        exact h'.symm
  · rw [if_neg hv] at h
    exact absurd h (by simp)

/-- A two-file destination can never arise from the adjacent-square loop. -/
theorem castle_target_not_adjacent (g : Game) (s : Position) (p : Piece) (c : Int)
    (hc : c.natAbs = 2) : s.offset 0 c ∉ kingAdjacentMoves g s p := by
  intro hmem
  obtain ⟨o, ho, heq⟩ := mem_kingAdjacent g s p _ hmem
  obtain ⟨h1, h2⟩ := (Position.offset_inj s 0 c o.1 o.2).mp heq
  fin_cases ho <;> simp only at h1 h2 <;> omega

/-- The kingside castling block yields nothing but the two-file square. -/
theorem kingsideCastleList_sub (g : Game) (s : Position) (p : Piece) :
    ∀ d ∈ kingsideCastleList g s p, d = s.offset 0 2 := by
  intro d hd
  unfold kingsideCastleList at hd
  rcases h7 : g.board.get ⟨s.row, 7⟩ with _ | rk <;> rw [h7] at hd
  · exact absurd hd (List.not_mem_nil _)
  · have hd' : d ∈ (if rk.pieceType = PieceType.rook ∧ ¬rk.hasMoved then
        if (intRange (s.col + 1) 7).all (fun c => (g.board.get ⟨s.row, c⟩).isNone) then
          if isPositionUnderAttack g (s.offset 0 1) p.color = false ∧
             isPositionUnderAttack g (s.offset 0 2) p.color = false then
            [s.offset 0 2]
          else []
        else []
      else []) := hd
    split_ifs at hd' with h1 h2 h3
    all_goals first
      | exact List.mem_singleton.mp hd'
      | exact absurd hd' (List.not_mem_nil _)

/-- The queenside castling block yields nothing but the two-file square. -/
theorem queensideCastleList_sub (g : Game) (s : Position) (p : Piece) :
    ∀ d ∈ queensideCastleList g s p, d = s.offset 0 (-2) := by
  intro d hd
  unfold queensideCastleList at hd
  rcases h0 : g.board.get ⟨s.row, 0⟩ with _ | rk <;> rw [h0] at hd
  · exact absurd hd (List.not_mem_nil _)
  · have hd' : d ∈ (if rk.pieceType = PieceType.rook ∧ ¬rk.hasMoved then
        if (intRange 1 s.col).all (fun c => (g.board.get ⟨s.row, c⟩).isNone) then
          if isPositionUnderAttack g (s.offset 0 (-1)) p.color = false ∧
             isPositionUnderAttack g (s.offset 0 (-2)) p.color = false then
            [s.offset 0 (-2)]
          else []
        else []
      else []) := hd
    split_ifs at hd' with h1 h2 h3
    all_goals first
      | exact List.mem_singleton.mp hd'
      | exact absurd hd' (List.not_mem_nil _)

/-- Membership of the kingside destination in the kingside castling block is
exactly the rook, empty-path and safe-transit gates. -/
theorem mem_kingsideCastleList_iff (g : Game) (s : Position) (p : Piece) :
    s.offset 0 2 ∈ kingsideCastleList g s p ↔
      ((∃ rk, g.board.get ⟨s.row, 7⟩ = some rk ∧
          rk.pieceType = PieceType.rook ∧ rk.hasMoved = false) ∧
       (∀ c ∈ intRange (s.col + 1) 7, g.board.get ⟨s.row, c⟩ = none) ∧
       isPositionUnderAttack g (s.offset 0 1) p.color = false ∧
       isPositionUnderAttack g (s.offset 0 2) p.color = false) := by
  unfold kingsideCastleList
  rcases h7 : g.board.get ⟨s.row, 7⟩ with _ | rk <;> simp only [h7]
  · simp
  · split_ifs with h1 h2 h3
    · simp only [List.mem_singleton, true_iff, iff_true]
      refine ⟨⟨rk, rfl, h1.1, by simpa using h1.2⟩, ?_, h3.1, h3.2⟩
      intro c hc
      exact Option.isNone_iff_eq_none.mp (List.all_eq_true.mp h2 c hc)
    · constructor
      · intro h
        exact absurd h (List.not_mem_nil _)
      · rintro ⟨-, -, ha1, ha2⟩
        exact absurd ⟨ha1, ha2⟩ h3
    · constructor
      · intro h
        exact absurd h (List.not_mem_nil _)
      · rintro ⟨-, hempty, -, -⟩
        refine absurd (List.all_eq_true.mpr ?_) h2
        intro c hc
        exact Option.isNone_iff_eq_none.mpr (hempty c hc)
    · constructor
      · intro h
        exact absurd h (List.not_mem_nil _)
      · rintro ⟨⟨rk', heq, hty, hmv⟩, -, -⟩
        injection heq with heq
        subst heq
        exact absurd ⟨hty, by simp [hmv]⟩ h1

/-- Membership of the queenside destination in the queenside castling block
is exactly the rook, empty-path and safe-transit gates. -/
theorem mem_queensideCastleList_iff (g : Game) (s : Position) (p : Piece) :
    s.offset 0 (-2) ∈ queensideCastleList g s p ↔
      ((∃ rk, g.board.get ⟨s.row, 0⟩ = some rk ∧
          rk.pieceType = PieceType.rook ∧ rk.hasMoved = false) ∧
       (∀ c ∈ intRange 1 s.col, g.board.get ⟨s.row, c⟩ = none) ∧
       isPositionUnderAttack g (s.offset 0 (-1)) p.color = false ∧
       isPositionUnderAttack g (s.offset 0 (-2)) p.color = false) := by
  unfold queensideCastleList
  rcases h0 : g.board.get ⟨s.row, 0⟩ with _ | rk <;> simp only [h0]
  · simp
  · split_ifs with h1 h2 h3
    · simp only [List.mem_singleton, true_iff, iff_true]
      refine ⟨⟨rk, rfl, h1.1, by simpa using h1.2⟩, ?_, h3.1, h3.2⟩
      intro c hc
      exact Option.isNone_iff_eq_none.mp (List.all_eq_true.mp h2 c hc)
    · constructor
      · intro h
        exact absurd h (List.not_mem_nil _)
      · rintro ⟨-, -, ha1, ha2⟩
        exact absurd ⟨ha1, ha2⟩ h3
    · constructor
      · intro h
        exact absurd h (List.not_mem_nil _)
      · rintro ⟨-, hempty, -, -⟩
        refine absurd (List.all_eq_true.mpr ?_) h2
        intro c hc
        exact Option.isNone_iff_eq_none.mpr (hempty c hc)
    · constructor
      · intro h
        exact absurd h (List.not_mem_nil _)
      · rintro ⟨⟨rk', heq, hty, hmv⟩, -, -⟩
        injection heq with heq
        subst heq
        exact absurd ⟨hty, by simp [hmv]⟩ h1

/-- C3: for a king of the side to move on square s, the kingside (resp.
queenside) two-square destination appears among the generated king moves iff
all of its gates hold — king unmoved, not in check, corner rook present and
unmoved, squares strictly between king and rook empty, both transit squares
unattacked — and every other destination is exactly an adjacent-square move,
unaffected by the castling gates. -/
theorem castling_gates_spec (g : Game) (s : Position) (p : Piece)
    (hp : getPiece g s = some p) (hk : p.pieceType = PieceType.king)
    (hcol : p.color = g.currentTurn) :
    (s.offset 0 2 ∈ getKingMoves g s p ↔ kingsideGates g s p) ∧
    (s.offset 0 (-2) ∈ getKingMoves g s p ↔ queensideGates g s p) ∧
    (∀ d : Position, d ≠ s.offset 0 2 → d ≠ s.offset 0 (-2) →
      (d ∈ getKingMoves g s p ↔ d ∈ kingAdjacentMoves g s p)) := by
  unfold getKingMoves
  by_cases H : ¬p.hasMoved ∧ isInCheck g p.color = false
  · rw [if_pos H]
    obtain ⟨H1, H2⟩ := H
    refine ⟨?_, ?_, ?_⟩
    · simp only [List.mem_append, or_assoc]
      constructor
      · rintro (h | h | h)
        · exact absurd h (castle_target_not_adjacent g s p 2 rfl)
        · obtain ⟨hrk, hempty, ha1, ha2⟩ := (mem_kingsideCastleList_iff g s p).mp h
          exact ⟨by simpa using H1, H2, hrk, hempty, ha1, ha2⟩
        · have := queensideCastleList_sub g s p _ h
          obtain ⟨-, hc⟩ := (Position.offset_inj s 0 2 0 (-2)).mp this
          omega
      · rintro ⟨-, -, hrk, hempty, ha1, ha2⟩
        exact Or.inr (Or.inl ((mem_kingsideCastleList_iff g s p).mpr
          ⟨hrk, hempty, ha1, ha2⟩))
    · simp only [List.mem_append, or_assoc]
      constructor
      · rintro (h | h | h)
        · exact absurd h (castle_target_not_adjacent g s p (-2) rfl)
        · have := kingsideCastleList_sub g s p _ h
          obtain ⟨-, hc⟩ := (Position.offset_inj s 0 (-2) 0 2).mp this
          omega
        · obtain ⟨hrk, hempty, ha1, ha2⟩ := (mem_queensideCastleList_iff g s p).mp h
          exact ⟨by simpa using H1, H2, hrk, hempty, ha1, ha2⟩
      · rintro ⟨-, -, hrk, hempty, ha1, ha2⟩
        exact Or.inr (Or.inr ((mem_queensideCastleList_iff g s p).mpr
          ⟨hrk, hempty, ha1, ha2⟩))
    · intro d hd2 hdm2
      simp only [List.mem_append, or_assoc]
      constructor
      · rintro (h | h | h)
        · exact h
        · exact absurd (kingsideCastleList_sub g s p _ h) hd2
        · exact absurd (queensideCastleList_sub g s p _ h) hdm2
      · exact fun h => Or.inl h
  · rw [if_neg H]
    refine ⟨?_, ?_, fun d _ _ => Iff.rfl⟩
    · constructor
      · intro h
        exact absurd h (castle_target_not_adjacent g s p 2 rfl)
      · rintro ⟨h1, h2, -⟩
        exact absurd ⟨by simp [h1], h2⟩ H
    · constructor
      · intro h
        exact absurd h (castle_target_not_adjacent g s p (-2) rfl)
      · rintro ⟨h1, h2, -⟩
        exact absurd ⟨by simp [h1], h2⟩ H

/-- Witness for C3 at a concrete input: in `castleGame` every kingside gate
holds for the white king on e1. -/
theorem castling_gates_spec_witness :
    getPiece castleGame ⟨0, 4⟩ = some ⟨.king, .white, false⟩ ∧
    (⟨.king, .white, false⟩ : Piece).pieceType = PieceType.king ∧
    (⟨.king, .white, false⟩ : Piece).color = castleGame.currentTurn ∧
    (((⟨0, 4⟩ : Position).offset 0 2 ∈ getKingMoves castleGame ⟨0, 4⟩ ⟨.king, .white, false⟩
        ↔ kingsideGates castleGame ⟨0, 4⟩ ⟨.king, .white, false⟩) ∧
      ((⟨0, 4⟩ : Position).offset 0 (-2) ∈ getKingMoves castleGame ⟨0, 4⟩ ⟨.king, .white, false⟩
        ↔ queensideGates castleGame ⟨0, 4⟩ ⟨.king, .white, false⟩) ∧
      (∀ d : Position, d ≠ (⟨0, 4⟩ : Position).offset 0 2 →
        d ≠ (⟨0, 4⟩ : Position).offset 0 (-2) →
        (d ∈ getKingMoves castleGame ⟨0, 4⟩ ⟨.king, .white, false⟩
          ↔ d ∈ kingAdjacentMoves castleGame ⟨0, 4⟩ ⟨.king, .white, false⟩))) :=
  ⟨by decide, rfl, rfl,
    castling_gates_spec castleGame ⟨0, 4⟩ ⟨.king, .white, false⟩ (by decide) rfl rfl⟩
